import Mathlib

/-!
Verification development for the scraper-worker repository.

The definitions below are a shallow embedding of the JavaScript pipeline in
src/server.js and src/unnamed/part_001 (the latest variant, which the spec
consolidates), together with the session-lifecycle code shared with
src/unnamed/part_000.  Pure string processing is translated to functions on
`List Char` / `String`; JavaScript numbers are modelled with `Nat`, `Int` and
`Rat` (a rational idealisation of the IEEE double: the properties proved here
concern presence, sign and infinity, which rounding does not affect); nullable
values become `Option`; fallible/stateful code becomes explicit state passing
with oracle parameters standing for the outcomes of external browser calls.
-/

namespace Scraper

/-! ## Character classes (JavaScript regex classes used by the source)

`jsWs` is the character set matched by the JavaScript regex class backslash-s
(whitespace), which is also the set trimmed by String.prototype.trim.
`isDigitC` is the class backslash-d, `isWordChar` the class backslash-w
(both are ASCII-only in a regex without the u flag). -/

def jsWs (c : Char) : Bool :=
  let n := c.toNat
  decide (n = 9 ∨ n = 10 ∨ n = 11 ∨ n = 12 ∨ n = 13 ∨ n = 32 ∨ n = 160 ∨
    n = 5760 ∨ (8192 ≤ n ∧ n ≤ 8202) ∨ n = 8232 ∨ n = 8233 ∨ n = 8239 ∨
    n = 8287 ∨ n = 12288 ∨ n = 65279)

def isDigitC (c : Char) : Bool :=
  decide (48 ≤ c.toNat ∧ c.toNat ≤ 57)

def isWordChar (c : Char) : Bool :=
  decide ((48 ≤ c.toNat ∧ c.toNat ≤ 57) ∨ (65 ≤ c.toNat ∧ c.toNat ≤ 90) ∨
    (97 ≤ c.toNat ∧ c.toNat ≤ 122) ∨ c.toNat = 95)

/-! ## Text normalizer

Source (src/unnamed/part_001 line 24, same in src/server.js line 35):
the function clean maps a falsy input (null or the empty string) to null and
otherwise replaces every whitespace run by a single space and trims.
`wsToSp` followed by `squeeze` is replace(/\s+/g, ' '); `jsTrim` is trim(). -/

def wsToSp (c : Char) : Char := if jsWs c then ' ' else c

def squeeze : List Char → List Char
  | [] => []
  | [c] => [c]
  | a :: b :: rest =>
    if a = ' ' ∧ b = ' ' then squeeze (b :: rest) else a :: squeeze (b :: rest)

def jsTrim (l : List Char) : List Char :=
  ((l.dropWhile jsWs).reverse.dropWhile jsWs).reverse

def cleanL (l : List Char) : Option (List Char) :=
  if l = [] then none else some (jsTrim (squeeze (l.map wsToSp)))

def clean (s : String) : Option String :=
  (cleanL s.data).map String.mk

/-- Applying clean to the (nullable) result of a previous clean: in the source
a null flows into clean as a falsy value and comes out as null again. -/
def cleanOpt : Option String → Option String
  | none => none
  | some t => clean t

/-! ## Number parsing (parseInt with radix 10, parseFloat)

parseInt(s, 10): skip leading whitespace, optional sign, then the longest
prefix of decimal digits; NaN (here `none`) when there is no digit.
parseFloat(s): skip leading whitespace, optional sign, then either the literal
Infinity or the longest decimal-literal prefix (digits, optional fraction,
optional exponent); NaN when no digit was consumed. -/

def digitsToNat (l : List Char) : Nat :=
  l.foldl (fun a c => a * 10 + (c.toNat - 48)) 0

def digitsPrefixVal (l : List Char) : Option Nat :=
  match l.takeWhile isDigitC with
  | [] => none
  | ds => some (digitsToNat ds)

def jsParseIntZ (l : List Char) : Option Int :=
  match l.dropWhile jsWs with
  | [] => none
  | c :: r =>
    if c = '-' then (digitsPrefixVal r).map (fun n : Nat => -(n : Int))
    else if c = '+' then (digitsPrefixVal r).map (fun n : Nat => (n : Int))
    else (digitsPrefixVal (c :: r)).map (fun n : Nat => (n : Int))

def jsParseInt (s : String) : Option Int := jsParseIntZ s.data

/-- A JavaScript number that is not NaN: either a finite value (idealised as a
rational) or a signed infinity. -/
inductive JsNum where
  | fin (q : ℚ)
  | inf (neg : Bool)
deriving DecidableEq

/-- The decimal-literal part of parseFloat, after sign handling: integer
digits, optional fraction, optional exponent; `none` is NaN. -/
def parseFloatBody (l : List Char) : Option ℚ :=
  let ip := l.takeWhile isDigitC
  let r1 := l.dropWhile isDigitC
  let fp := match r1 with
    | '.' :: rest => rest.takeWhile isDigitC
    | _ => []
  let r2 := match r1 with
    | '.' :: rest => rest.dropWhile isDigitC
    | _ => r1
  if ip = [] ∧ fp = [] then none
  else
    let mant : ℚ := (digitsToNat (ip ++ fp) : ℚ) / ((10 : ℚ) ^ fp.length)
    let e : Int := match r2 with
      | c :: rest =>
        if c = 'e' ∨ c = 'E' then
          match rest with
          | '-' :: rest2 =>
            (match rest2.takeWhile isDigitC with
             | [] => 0
             | ds => -(digitsToNat ds : Int))
          | '+' :: rest2 =>
            (match rest2.takeWhile isDigitC with
             | [] => 0
             | ds => (digitsToNat ds : Int))
          | _ =>
            (match rest.takeWhile isDigitC with
             | [] => 0
             | ds => (digitsToNat ds : Int))
        else 0
      | [] => 0
    some (mant * (10 : ℚ) ^ e)

def listStarts (pat l : List Char) : Bool :=
  match pat, l with
  | [], _ => true
  | _ :: _, [] => false
  | p :: ps, c :: cs => p == c && listStarts ps cs

def jsParseFloat (s : String) : Option JsNum :=
  let l := s.data.dropWhile jsWs
  match l with
  | '-' :: r =>
    if listStarts "Infinity".data r then some (.inf true)
    else (parseFloatBody r).map (fun q => .fin (-q))
  | '+' :: r =>
    if listStarts "Infinity".data r then some (.inf false)
    else (parseFloatBody r).map (fun q => .fin q)
  | _ =>
    if listStarts "Infinity".data l then some (.inf false)
    else (parseFloatBody l).map (fun q => .fin q)

/-! ## Numeric output fields (src/unnamed/part_001 lines 228-240 and 305-306)

avgRating:   parseFloat(ratingValue), NaN becoming absence.
ratingCount: parseInt((ratingsCountText or empty).replace(/\D/g, ''), 10),
             NaN becoming absence.
pageCount:   formatText is split on commas and slashes, each trimmed part that
             mentions page (case-insensitively) has its digits extracted and
             parsed; a successful parse overwrites pageCount. -/

def avgRatingOf (ratingValue : Option String) : Option JsNum :=
  match ratingValue with
  | none => none
  | some s => jsParseFloat s

def ratingCountOf (ratingsCountText : Option String) : Option Int :=
  jsParseIntZ ((ratingsCountText.getD "").data.filter isDigitC)

def containsPage : List Char → Bool
  | p :: a :: g :: e :: rest =>
    (p.toLower == 'p' && a.toLower == 'a' && g.toLower == 'g' && e.toLower == 'e') ||
      containsPage (a :: g :: e :: rest)
  | _ => false

/-- split(/,|\//): split on every comma and forward slash. -/
def splitCS : List Char → List (List Char)
  | [] => [[]]
  | c :: rest =>
    if c = ',' ∨ c = '/' then [] :: splitCS rest
    else
      match splitCS rest with
      | h :: t => (c :: h) :: t
      | [] => [[c]]

/-- One iteration of the format-parts loop, restricted to its pageCount
component (the format component of the loop body does not feed back into
pageCount). -/
def pageStep (pc : Option Int) (part : List Char) : Option Int :=
  if containsPage part then
    match jsParseIntZ (part.filter isDigitC) with
    | some n => some n
    | none => pc
  else pc

def pageCountOf (formatText : Option String) : Option Int :=
  match formatText with
  | none => none
  | some ft =>
    if ft = "" then none
    else
      (((splitCS ft.data).map jsTrim).filter (fun p => !p.isEmpty)).foldl
        pageStep none

/-! ## Structured-data date formatter (src/server.js lines 37-43,
src/unnamed/part_001 lines 260-266)

The regex is caret (backslash-d{4}) (?:-(backslash-d{2}))? (?:-(backslash-d{2}))? dollar:
a four-digit year, an optional two-digit month, an optional two-digit day. -/

def monthNames : List String :=
  ["January", "February", "March", "April", "May", "June", "July",
   "August", "September", "October", "November", "December"]

/-- monthNames[m - 1] in JavaScript: an out-of-range index reads as the
undefined value, which prints as the string undefined inside a template. -/
def monthName (m : Nat) : String :=
  if m = 0 then "undefined" else (monthNames.get? (m - 1)).getD "undefined"

def isoParse : List Char → Option (List Char × Option (List Char) × Option (List Char))
  | a :: b :: c :: d :: rest =>
    if isDigitC a && isDigitC b && isDigitC c && isDigitC d then
      match rest with
      | [] => some ([a, b, c, d], none, none)
      | '-' :: m1 :: m2 :: rest2 =>
        if isDigitC m1 && isDigitC m2 then
          match rest2 with
          | [] => some ([a, b, c, d], some [m1, m2], none)
          | ['-', d1, d2] =>
            if isDigitC d1 && isDigitC d2 then
              some ([a, b, c, d], some [m1, m2], some [d1, d2])
            else none
          | _ => none
        else none
      | _ => none
    else none
  | _ => none

def fmtISO (iso : String) : Option String :=
  match isoParse iso.data with
  | some (y, some mm, some dd) =>
    some (monthName (digitsToNat mm) ++ " " ++ toString (digitsToNat dd) ++ ", " ++ String.mk y)
  | some (y, some mm, none) =>
    some (monthName (digitsToNat mm) ++ " " ++ String.mk y)
  | some (y, none, _) => some (String.mk y)
  | none => none

/-! ## Structured-data parser (src/unnamed/part_001 lines 174-183)

`J` models a parsed JSON value.  The raw script bodies are parsed by the
external JSON.parse, so the model input is the list of per-block parse
results, with `none` for a block that failed to parse (such blocks are
skipped).  `flatten` pushes every object (arrays are expanded, object
values visited recursively) in document order, and the canonical book is
the first flattened object whose at-type tag contains the word Book,
case-insensitively (regex backslash-b Book backslash-b with the i flag). -/

inductive J where
  | str (s : String)
  | num (n : Int)
  | bool (b : Bool)
  | null
  | arr (elems : List J)
  | obj (fields : List (String × J))

mutual
def flatten : J → List J
  | .arr es => flattenElems es
  | .obj fs => .obj fs :: flattenFields fs
  | _ => []

def flattenElems : List J → List J
  | [] => []
  | e :: es => flatten e ++ flattenElems es

def flattenFields : List (String × J) → List J
  | [] => []
  | (_, v) :: fs => flatten v ++ flattenFields fs
end

def getProp (key : String) : J → Option J
  | .obj fs => fs.lookup key
  | _ => none

/-- One position of the case-insensitive word-bounded Book test: the four
letters match and both neighbours (previous character, following character)
are absent or non-word. -/
def wordBookHere (prev : Option Char) : List Char → Bool
  | b :: o1 :: o2 :: k :: rest =>
    (b.toLower == 'b' && o1.toLower == 'o' && o2.toLower == 'o' && k.toLower == 'k') &&
    (match prev with | none => true | some p => !isWordChar p) &&
    (match rest with | [] => true | n :: _ => !isWordChar n)
  | _ => false

def hasWordBookAux (prev : Option Char) : List Char → Bool
  | [] => false
  | c :: rest => wordBookHere prev (c :: rest) || hasWordBookAux (some c) rest

def hasWordBook (s : String) : Bool := hasWordBookAux none s.data

def isBookTypeTag : J → Bool
  | .str s => hasWordBook s
  | _ => false

def hasBookType (o : J) : Bool :=
  match getProp "@type" o with
  | some (.str s) => hasWordBook s
  | some (.arr ts) => ts.any isBookTypeTag
  | _ => false

def flattenPool (blocks : List (Option J)) : List J :=
  flattenElems (blocks.filterMap id)

def ldBookOf (blocks : List (Option J)) : Option J :=
  (flattenPool blocks).find? hasBookType

/-! ## Published-candidate policy (src/unnamed/part_001 lines 249-256,
src/server.js lines 139-143)

Candidates are cleaned, falsy results dropped, candidates prefixed
First published (case-insensitive) excluded; then the first candidate
containing a whitespace-delimited by (case-insensitive) wins, otherwise
the last remaining candidate, otherwise the field is absent. -/

def startsWithCI (pat : List Char) : List Char → Bool :=
  fun l =>
    match pat, l with
    | [], _ => true
    | _ :: _, [] => false
    | p :: ps, c :: cs => p.toLower == c.toLower && startsWithCI ps cs

def isFirstPublished (s : String) : Bool :=
  startsWithCI "first published".data s.data

def hasByAux : List Char → Bool
  | a :: b :: y :: c :: rest =>
    (jsWs a && b.toLower == 'b' && y.toLower == 'y' && jsWs c) ||
      hasByAux (b :: y :: c :: rest)
  | _ => false

def hasBy (s : String) : Bool := hasByAux s.data

def publishedPool (cands : List String) : List String :=
  ((cands.filterMap clean).filter (fun t => t != "")).filter
    (fun t => !isFirstPublished t)

def selectPublished (cands : List String) : Option String :=
  match (publishedPool cands).find? hasBy with
  | some w => some w
  | none => (publishedPool cands).getLast?

/-! ## Scrape deadline clamp (src/unnamed/part_001 line 91)

Math.max(15000, Math.min(60000, parseInt(req.query.timeout or the default
string 45000, 10) or 45000)): a missing or empty parameter falls back to the
default string, a NaN or zero parse result falls back to 45000, and the value
is clamped into [15000, 60000].  The result is the millisecond deadline that
wraps the whole runScrape call on line 95. -/

def clampTimeout (q : Option String) : Int :=
  let raw := match q with
    | none => "45000"
    | some t => if t = "" then "45000" else t
  let n : Int := match jsParseInt raw with
    | none => 45000
    | some v => if v = 0 then 45000 else v
  max 15000 (min 60000 n)

/-! ## Session lifecycle and orchestrator model
(src/unnamed/part_001 lines 33-68 and 112-340)

The mutable module state is `SSt`: the shared browser reference, an id supply
for launched browsers, the set of currently open page contexts and an id
supply for them.  External browser calls are oracles (`Except` outcomes fixed
in advance); every run also produces a trace of observable events. -/

abbrev Err := String

/-- An assembled book record; the orchestrator claims only move records
around, so records are identified by an abstract id. -/
abbrev Rec := Nat

structure SSt where
  browserRef : Option Nat
  nextB : Nat
  openCtxs : List Nat
  nextC : Nat
deriving DecidableEq

inductive Ev where
  | launchTry
  | closeBrowser
  | clearRef
  | ctxOpen (c : Nat)
  | ctxClose (c : Nat)
  | attemptStart (n : Nat) (ref : Option Nat)
  | pause
deriving DecidableEq

/-- getBrowser (lines 44-53): reuse the live handle, otherwise perform a
launch whose outcome is the oracle `launch`; a failed launch leaves the
reference cleared. -/
def getBrowser (launch : Except Err Unit) (st : SSt) :
    Except Err Nat × SSt × List Ev :=
  match st.browserRef with
  | some b => (.ok b, st, [])
  | none =>
    match launch with
    | .ok _ =>
      (.ok st.nextB,
       { st with browserRef := some st.nextB, nextB := st.nextB + 1 },
       [.launchTry])
    | .error e => (.error e, st, [.launchTry])

structure CtxOracle where
  launchA : Except Err Unit
  ctxA : Except Err Unit
  launchB : Except Err Unit
  ctxB : Except Err Unit

def openCtx (st : SSt) : Nat × SSt × List Ev :=
  (st.nextC,
   { st with openCtxs := st.nextC :: st.openCtxs, nextC := st.nextC + 1 },
   [.ctxOpen st.nextC])

/-- The catch block of newContextSafe (lines 60-67): best-effort close of the
current handle (a secondary error is swallowed and close always tears the
handle down), clear the reference, then one fresh getBrowser and one new
context attempt. -/
def ctxRecover (o : CtxOracle) (st : SSt) : Except Err Nat × SSt × List Ev :=
  let closeEvs := if st.browserRef.isSome then [Ev.closeBrowser] else []
  let st1 := { st with browserRef := none }
  let evs0 := closeEvs ++ [Ev.clearRef]
  match getBrowser o.launchB st1 with
  | (.ok _, st2, evs1) =>
    match o.ctxB with
    | .ok _ =>
      let r := openCtx st2
      (.ok r.1, r.2.1, evs0 ++ evs1 ++ r.2.2)
    | .error e => (.error e, st2, evs0 ++ evs1)
  | (.error e, st2, evs1) => (.error e, st2, evs0 ++ evs1)

/-- newContextSafe (lines 54-68): try getBrowser plus newContext, and on any
failure run the recovery path once. -/
def newContextSafe (o : CtxOracle) (st : SSt) : Except Err Nat × SSt × List Ev :=
  match getBrowser o.launchA st with
  | (.ok _, st1, evs1) =>
    match o.ctxA with
    | .ok _ =>
      let r := openCtx st1
      (.ok r.1, r.2.1, evs1 ++ r.2.2)
    | .error _ =>
      let r := ctxRecover o st1
      (r.1, r.2.1, evs1 ++ r.2.2)
  | (.error _, st1, evs1) =>
    let r := ctxRecover o st1
    (r.1, r.2.1, evs1 ++ r.2.2)

structure AttemptOracle where
  ctx : CtxOracle
  /-- Outcome of the whole navigation-through-assembly body, newPage through
  the built record (lines 117-328); a deadline expiry inside the attempt is
  one of the possible errors. -/
  pipe : Except Err Rec
  /-- Outcome of the success-path ctx.close() on line 330 (`some e` throws). -/
  closeErr : Option Err

def closeCtxSt (c : Nat) (st : SSt) : SSt :=
  { st with openCtxs := st.openCtxs.erase c }

/-- One iteration of the runScrape loop body (lines 114-333): create a
context, run the pipeline, close the context on the success path; on any
error close the context best-effort in the catch (line 333).  A failing
success-path close is caught, closed again (a no-op) and surfaces as the
attempt error. -/
def runAttempt (o : AttemptOracle) (st : SSt) : Except Err Rec × SSt × List Ev :=
  match newContextSafe o.ctx st with
  | (.error e, st1, evs) => (.error e, st1, evs)
  | (.ok c, st1, evs) =>
    match o.pipe with
    | .ok r =>
      match o.closeErr with
      | none => (.ok r, closeCtxSt c st1, evs ++ [.ctxClose c])
      | some e => (.error e, closeCtxSt c st1, evs ++ [.ctxClose c, .ctxClose c])
    | .error e => (.error e, closeCtxSt c st1, evs ++ [.ctxClose c])

structure ScrapeOracle where
  a1 : AttemptOracle
  a2 : AttemptOracle

/-- Session invalidation between the attempts (lines 335-337): best-effort
close of the shared browser, clear the reference, short pause. -/
def invalidateEvs (st : SSt) : List Ev :=
  (if st.browserRef.isSome then [Ev.closeBrowser] else []) ++ [Ev.clearRef, Ev.pause]

/-- runScrape (lines 112-340): at most two attempts; the first failure
invalidates the session and the loop retries exactly once; the second
failure is rethrown to the caller. -/
def runScrape (o : ScrapeOracle) (st : SSt) : Except Err Rec × SSt × List Ev :=
  match runAttempt o.a1 st with
  | (.ok r, st1, t1) => (.ok r, st1, Ev.attemptStart 1 st.browserRef :: t1)
  | (.error _, st1, t1) =>
    let st2 : SSt := { st1 with browserRef := none }
    let head := Ev.attemptStart 1 st.browserRef :: t1 ++ invalidateEvs st1 ++
      [Ev.attemptStart 2 st2.browserRef]
    match runAttempt o.a2 st2 with
    | (res, st3, t3) => (res, st3, head ++ t3)

def isStartEv : Ev → Bool
  | .attemptStart _ _ => true
  | _ => false

def countStarts (tr : List Ev) : Nat := tr.countP isStartEv

def isLaunchEv : Ev → Bool
  | .launchTry => true
  | _ => false

def countLaunches (tr : List Ev) : Nat := tr.countP isLaunchEv

/-! ## Launch deduplication under the event loop
(src/unnamed/part_001 lines 44-53, src/unnamed/part_000 lines 99-106)

Each `LAct` is one atomic event-loop turn touching the two module variables:
`getB` is the synchronous prologue of a getBrowser call (check browserRef,
check launching, install the latch and begin a launch with no await in
between); `settleInner` is the launch attempt completing together with its
finally handler clearing the latch; `settleOuter` is the then handler
publishing or clearing browserRef; `disconnect` is the disconnected listener
from line 41.  `starting` counts launch attempts currently in progress. -/

structure LSt where
  browserRef : Bool
  launching : Bool
  starting : Nat
  pendingOuter : Option Bool
deriving DecidableEq

inductive LAct where
  | getB
  | settleInner (ok : Bool)
  | settleOuter
  | disconnect
deriving DecidableEq

def lstep (st : LSt) (a : LAct) : LSt :=
  match a with
  | .getB =>
    if st.browserRef then st
    else if st.launching then st
    else { st with launching := true, starting := st.starting + 1 }
  | .settleInner ok =>
    if st.starting = 0 then st
    else { st with starting := st.starting - 1, launching := false,
                   pendingOuter := some ok }
  | .settleOuter =>
    match st.pendingOuter with
    | none => st
    | some ok => { st with browserRef := ok, pendingOuter := none }
  | .disconnect => { st with browserRef := false }

def linit : LSt := ⟨false, false, 0, none⟩

def lrun (acts : List LAct) : LSt := acts.foldl lstep linit

/-! ## Concrete example inputs used by witnesses and counterexamples -/

def exReview : J := J.obj [("@type", J.str "Review")]

def exBook : J := J.obj [("@type", J.str "Book"), ("name", J.str "First")]

def exBook2 : J := J.obj [("@type", J.str "Book"), ("name", J.str "Second")]

def exBlocks : List (Option J) := [some (J.arr [exReview, exBook, exBook2])]

def exCands : List String :=
  ["First published January 1, 1999", " May 2, 2020 by Acme Press ", "June 2021"]

def exSt : SSt := { browserRef := some 0, nextB := 1, openCtxs := [], nextC := 0 }

def exCtxOracle : CtxOracle :=
  { launchA := .ok (), ctxA := .error "newContext failed",
    launchB := .ok (), ctxB := .ok () }

def exScrapeOracle : ScrapeOracle :=
  { a1 := { ctx := { launchA := .ok (), ctxA := .ok (),
                     launchB := .ok (), ctxB := .ok () },
            pipe := .error "navigation timed out", closeErr := none },
    a2 := { ctx := { launchA := .ok (), ctxA := .ok (),
                     launchB := .ok (), ctxB := .ok () },
            pipe := .ok 7, closeErr := none } }

/-- Adjacent-character relation used to describe squeeze normal forms: no two
consecutive spaces. -/
def noSp2 (a b : Char) : Prop := ¬(a = ' ' ∧ b = ' ')

/-! ## Theorems -/

/-- First-match characterization of List.find?: the result is the element at
the first position satisfying the predicate. -/
theorem find_first_iff {α : Type} (p : α → Bool) :
    ∀ (l : List α) (x : α), l.find? p = some x ↔
      ∃ l1 l2, l = l1 ++ x :: l2 ∧ p x = true ∧ ∀ y ∈ l1, p y = false := by
  intro l
  induction l with
  | nil => intro x; simp
  | cons a t ih =>
    intro x
    cases hpa : p a with
    | true =>
      simp only [List.find?_cons, hpa]
      constructor
      · intro h
        rw [Option.some.injEq] at h
        subst h
        exact ⟨[], t, rfl, hpa, by simp⟩
      · rintro ⟨l1, l2, heq, hpx, hall⟩
        cases l1 with
        | nil =>
          simp only [List.nil_append] at heq
          injection heq with h1 h2
          subst h1
          rfl
        | cons b l1 =>
          rw [List.cons_append] at heq
          injection heq with h1 h2
          subst h1
          rw [hall a (List.mem_cons_self a l1)] at hpa
          cases hpa
    | false =>
      simp only [List.find?_cons, hpa]
      rw [ih x]
      constructor
      · rintro ⟨l1, l2, heq, hpx, hall⟩
        refine ⟨a :: l1, l2, by rw [heq, List.cons_append], hpx, ?_⟩
        intro y hy
        rcases List.mem_cons.mp hy with rfl | hy2
        · exact hpa
        · exact hall y hy2
      · rintro ⟨l1, l2, heq, hpx, hall⟩
        cases l1 with
        | nil =>
          simp only [List.nil_append] at heq
          injection heq with h1 h2
          subst h1
          rw [hpx] at hpa
          cases hpa
        | cons b l1 =>
          rw [List.cons_append] at heq
          injection heq with h1 h2
          exact ⟨l1, l2, h2, hpx, fun y hy => hall y (List.mem_cons_of_mem b hy)⟩

/-- C4: the structured-data date formatter maps the three ISO partial-date
shapes to the documented renderings, and every input whose shape the regex
rejects yields absence (none), never an exception (the function is total). -/
theorem C4_fmtISO_table :
    fmtISO "2020" = some "2020" ∧
    fmtISO "2020-05" = some "May 2020" ∧
    fmtISO "2020-05-14" = some "May 14, 2020" ∧
    fmtISO "abcd" = none ∧
    (∀ s : String, isoParse s.data = none → fmtISO s = none) := by
  refine ⟨rfl, rfl, rfl, rfl, ?_⟩
  intro s h
  simp [fmtISO, h]

/-- Witness for C4 at the concrete malformed input. -/
theorem C4_fmtISO_table_witness :
    isoParse "abcd".data = none ∧ fmtISO "abcd" = none :=
  ⟨rfl, C4_fmtISO_table.2.2.2.2 "abcd" rfl⟩

/-- C10: the scrape deadline is the timeout parameter parsed as an integer and
clamped into [15000, 60000]; a missing parameter, an empty string, a
non-numeric string or a falsy (zero) parse all yield the default 45000. -/
theorem C10_timeout_clamp :
    (∀ q, 15000 ≤ clampTimeout q ∧ clampTimeout q ≤ 60000) ∧
    clampTimeout none = 45000 ∧
    clampTimeout (some "") = 45000 ∧
    (∀ s, jsParseInt s = none → clampTimeout (some s) = 45000) ∧
    (∀ s, jsParseInt s = some 0 → clampTimeout (some s) = 45000) ∧
    (∀ s v, jsParseInt s = some v → v ≠ 0 → s ≠ "" →
      clampTimeout (some s) = max 15000 (min 60000 v)) := by
  refine ⟨?_, by decide, by decide, ?_, ?_, ?_⟩
  · intro q
    unfold clampTimeout
    constructor
    · exact le_max_left _ _
    · exact max_le (by norm_num) (min_le_left _ _)
  · intro s h
    by_cases hs : s = ""
    · subst hs; decide
    · simp only [clampTimeout, if_neg hs, h]
      decide
  · intro s h
    by_cases hs : s = ""
    · subst hs
      exact absurd h (by decide)
    · simp only [clampTimeout, if_neg hs, h]
      decide
  · intro s v h hv hs
    simp only [clampTimeout, if_neg hs, h, if_neg hv]

/-- Witness for C10 at a concrete in-range value. -/
theorem C10_timeout_clamp_witness :
    jsParseInt "30000" = some 30000 ∧
    clampTimeout (some "30000") = max 15000 (min 60000 30000) :=
  ⟨by decide,
   C10_timeout_clamp.2.2.2.2.2 "30000" 30000 (by decide) (by decide) (by decide)⟩

/-- The event-loop invariant of the launch latch: the number of launch
attempts in progress equals one exactly while the latch is installed. -/
theorem lstep_latch_inv (st : LSt) (a : LAct)
    (h : st.starting = if st.launching then 1 else 0) :
    (lstep st a).starting = if (lstep st a).launching then 1 else 0 := by
  cases a with
  | getB =>
    by_cases hb : st.browserRef <;> by_cases hl : st.launching <;>
      simp_all [lstep]
  | settleInner ok =>
    by_cases hz : st.starting = 0 <;> by_cases hl : st.launching <;>
      simp_all [lstep]
  | settleOuter =>
    cases hp : st.pendingOuter <;> simp_all [lstep]
  | disconnect => simp_all [lstep]

theorem lrun_latch_inv (acts : List LAct) :
    (lrun acts).starting = if (lrun acts).launching then 1 else 0 := by
  suffices h : ∀ st, st.starting = (if st.launching then 1 else 0) →
      ∀ acts2 : List LAct,
      (acts2.foldl lstep st).starting =
        if (acts2.foldl lstep st).launching then 1 else 0 by
    exact h linit (by decide) acts
  intro st hst acts2
  induction acts2 generalizing st with
  | nil => exact hst
  | cons a t ih => exact ih (lstep st a) (lstep_latch_inv st a hst)

/-- C8: under the cooperative event-loop model of getBrowser, at most one
browser launch is ever in progress, and a getBrowser call arriving while the
launch latch is installed starts no new launch (it awaits the in-flight
attempt). -/
theorem C8_launch_dedup :
    (∀ acts, (lrun acts).starting ≤ 1) ∧
    (∀ acts, (lrun acts).launching = true →
      (lstep (lrun acts) LAct.getB).starting = (lrun acts).starting) := by
  constructor
  · intro acts
    rw [lrun_latch_inv acts]
    split <;> omega
  · intro acts h
    by_cases hb : (lrun acts).browserRef <;> simp [lstep, h, hb]

/-- Witness for C8: a second acquisition right after a first one observes the
latch and does not start a second launch. -/
theorem C8_launch_dedup_witness :
    (lrun [LAct.getB]).launching = true ∧
    (lstep (lrun [LAct.getB]) LAct.getB).starting = (lrun [LAct.getB]).starting :=
  ⟨rfl, C8_launch_dedup.2 [LAct.getB] rfl⟩

theorem mem_of_getLast_some {α : Type} {l : List α} {a : α}
    (h : l.getLast? = some a) : a ∈ l := by
  obtain ⟨hne, rfl⟩ := List.mem_getLast?_eq_getLast (show a ∈ l.getLast? by rw [h]; rfl)
  exact List.getLast_mem hne

theorem isDigitC_not_ws (c : Char) (h : isDigitC c = true) : jsWs c = false := by
  rw [isDigitC, decide_eq_true_iff] at h
  rw [jsWs, decide_eq_false_iff_not]
  omega

theorem isDigitC_ne_minus (c : Char) (h : isDigitC c = true) : c ≠ '-' := by
  intro hc
  subst hc
  simp [isDigitC] at h

theorem isDigitC_ne_plus (c : Char) (h : isDigitC c = true) : c ≠ '+' := by
  intro hc
  subst hc
  simp [isDigitC] at h

/-- parseInt applied to a digits-only string (the result of stripping all
non-digits) is non-negative whenever it is not NaN. -/
theorem jsParseIntZ_digits_nonneg (l : List Char) (v : Int)
    (h : jsParseIntZ (l.filter isDigitC) = some v) : 0 ≤ v := by
  cases hfl : l.filter isDigitC with
  | nil => rw [hfl] at h; cases h
  | cons c r =>
    have hc : isDigitC c = true :=
      (List.mem_filter.mp (hfl ▸ List.mem_cons_self c r)).2
    have hw : jsWs c = false := isDigitC_not_ws c hc
    have hdw : (c :: r).dropWhile jsWs = c :: r := by
      rw [List.dropWhile_cons, if_neg (by rw [hw]; exact Bool.false_ne_true)]
    rw [hfl] at h
    simp only [jsParseIntZ, hdw] at h
    rw [if_neg (isDigitC_ne_minus c hc), if_neg (isDigitC_ne_plus c hc)] at h
    obtain ⟨n, _, hv⟩ := Option.map_eq_some'.mp h
    rw [← hv]
    exact Int.natCast_nonneg n

theorem pageFold_nonneg (parts : List (List Char)) :
    ∀ (pc : Option Int), (∀ v, pc = some v → 0 ≤ v) →
      ∀ v, parts.foldl pageStep pc = some v → 0 ≤ v := by
  induction parts with
  | nil => intro pc hpc v hv; exact hpc v hv
  | cons part rest ih =>
    intro pc hpc v hv
    rw [List.foldl_cons] at hv
    refine ih (pageStep pc part) ?_ v hv
    intro w hw
    unfold pageStep at hw
    by_cases hcp : containsPage part
    · rw [if_pos hcp] at hw
      cases hj : jsParseIntZ (part.filter isDigitC) with
      | none => simp only [hj] at hw; exact hpc w hw
      | some n =>
        simp only [hj] at hw
        injection hw with h1
        subst h1
        exact jsParseIntZ_digits_nonneg part n hj
    · rw [if_neg hcp] at hw
      exact hpc w hw

/-- C3 counterexample: the claim requires averageRating, when present, to be
non-negative and finite for every source text, but parseFloat on the page
text -1 yields a present negative value (and on Infinity a present infinite
one). -/
theorem C3_counterexample :
    avgRatingOf (some "-1") = some (JsNum.fin (-1)) ∧ ¬ (0 ≤ (-1 : ℚ)) ∧
    avgRatingOf (some "Infinity") = some (JsNum.inf false) := by
  refine ⟨?_, by norm_num, rfl⟩
  show (parseFloatBody ['1']).map (fun q => JsNum.fin (-q)) = some (JsNum.fin (-1))
  simp [parseFloatBody, digitsToNat, List.takeWhile, List.dropWhile, isDigitC]

/-- C3 amended: ratingCount and pageCount, when present, are non-negative
integers for every source text (both are parsed from digit-filtered text),
and a parse failure yields absence of the field rather than a sentinel;
averageRating, when present, is the raw parseFloat value, which is never NaN
but may be negative or infinite for adversarial text. -/
theorem C3_numeric_invariants (rc ft : Option String) :
    (∀ v, ratingCountOf rc = some v → 0 ≤ v) ∧
    (∀ v, pageCountOf ft = some v → 0 ≤ v) ∧
    ((rc.getD "").data.filter isDigitC = [] → ratingCountOf rc = none) := by
  refine ⟨?_, ?_, ?_⟩
  · intro v hv
    exact jsParseIntZ_digits_nonneg _ v hv
  · intro v hv
    cases ft with
    | none => cases hv
    | some ftv =>
      by_cases hfe : ftv = ""
      · subst hfe
        simp [pageCountOf] at hv
      · rw [pageCountOf] at hv
        rw [if_neg hfe] at hv
        exact pageFold_nonneg _ none (fun w hw => Option.noConfusion hw) v hv
  · intro h
    rw [ratingCountOf, h]
    rfl

/-- Witness for C3 at concrete rating-count and format texts. -/
theorem C3_numeric_invariants_witness :
    ratingCountOf (some "1,234 ratings") = some 1234 ∧
    pageCountOf (some "Paperback, 213 pages") = some 213 ∧
    (0 : Int) ≤ 1234 ∧ (0 : Int) ≤ 213 :=
  ⟨by decide, by decide,
   (C3_numeric_invariants (some "1,234 ratings") (some "Paperback, 213 pages")).1
     1234 (by decide),
   (C3_numeric_invariants (some "1,234 ratings") (some "Paperback, 213 pages")).2.1
     213 (by decide)⟩

/-- C5: the canonical book object is the first object of the flattened,
document-ordered pool whose type tag matches Book case-insensitively; in a
pool holding a Review-typed and two Book-typed objects, the first Book-typed
object is selected. -/
theorem C5_book_selection :
    (∀ blocks x, ldBookOf blocks = some x ↔
      ∃ l1 l2, flattenPool blocks = l1 ++ x :: l2 ∧ hasBookType x = true ∧
        ∀ y ∈ l1, hasBookType y = false) ∧
    hasBookType exReview = false ∧
    hasBookType exBook = true ∧
    hasBookType exBook2 = true ∧
    flattenPool exBlocks = [exReview, exBook, exBook2] ∧
    ldBookOf exBlocks = some exBook := by
  refine ⟨?_, rfl, rfl, rfl, rfl, rfl⟩
  intro blocks x
  exact find_first_iff hasBookType (flattenPool blocks) x

/-- Witness for C5: the characterization applied at the concrete pool where a
Review-typed object precedes the Book-typed one. -/
theorem C5_book_selection_witness : ldBookOf exBlocks = some exBook :=
  (C5_book_selection.1 exBlocks exBook).mpr
    ⟨[exReview], [exBook2], rfl, rfl, by
      intro y hy
      rw [List.mem_singleton] at hy
      subst hy
      rfl⟩

/-- C6: after cleaning, dropping empty candidates and excluding those
prefixed First published, the selected published value is a candidate
containing a whitespace-delimited by if one exists, otherwise the last
remaining candidate, otherwise absent. -/
theorem C6_published_policy (cands : List String) :
    (publishedPool cands = [] → selectPublished cands = none) ∧
    (∀ w, selectPublished cands = some w → w ∈ publishedPool cands) ∧
    ((∃ t ∈ publishedPool cands, hasBy t = true) →
      ∃ w, selectPublished cands = some w ∧ hasBy w = true ∧
        w ∈ publishedPool cands) ∧
    ((∀ t ∈ publishedPool cands, hasBy t = false) →
      ∀ h : publishedPool cands ≠ [],
        selectPublished cands = some ((publishedPool cands).getLast h)) := by
  refine ⟨?_, ?_, ?_, ?_⟩
  · intro h
    simp [selectPublished, h]
  · intro w hw
    rw [selectPublished] at hw
    cases hf : (publishedPool cands).find? hasBy with
    | some u =>
      simp only [hf] at hw
      injection hw with h1
      subst h1
      exact List.mem_of_find?_eq_some hf
    | none =>
      simp only [hf] at hw
      exact mem_of_getLast_some hw
  · rintro ⟨t, ht, hbt⟩
    cases hf : (publishedPool cands).find? hasBy with
    | none =>
      rw [List.find?_eq_none] at hf
      exact absurd hbt (by simpa using hf t ht)
    | some u =>
      exact ⟨u, by simp [selectPublished, hf], List.find?_some hf,
        List.mem_of_find?_eq_some hf⟩
  · intro hall h
    have hf : (publishedPool cands).find? hasBy = none :=
      List.find?_eq_none.mpr (fun x hx => by simp [hall x hx])
    simp [selectPublished, hf, List.getLast?_eq_getLast_of_ne_nil h]

/-- Witness for C6: on the concrete candidate list the by-shaped candidate is
selected and the First published candidate is excluded. -/
theorem C6_published_policy_witness :
    ∃ w, selectPublished exCands = some w ∧ hasBy w = true ∧
      w ∈ publishedPool exCands :=
  (C6_published_policy exCands).2.2.1
    ⟨"May 2, 2020 by Acme Press", by decide, by decide⟩

/-- C9: when context creation against an existing browser handle fails, the
handle is closed best-effort, the shared reference is cleared, exactly one
fresh launch is attempted, and the acquisition fails only if that second
launch-and-context attempt also fails. -/
theorem C9_context_recovery (o : CtxOracle) (st : SSt) (b : Nat) (e : Err)
    (hb : st.browserRef = some b) (hca : o.ctxA = Except.error e) :
    Ev.closeBrowser ∈ (newContextSafe o st).2.2 ∧
    Ev.clearRef ∈ (newContextSafe o st).2.2 ∧
    countLaunches (newContextSafe o st).2.2 = 1 ∧
    (∀ e2, (newContextSafe o st).1 = Except.error e2 →
      o.launchB = Except.error e2 ∨ o.ctxB = Except.error e2) ∧
    ((∃ c, (newContextSafe o st).1 = Except.ok c) ↔
      (o.launchB = Except.ok () ∧ o.ctxB = Except.ok ())) := by
  cases hlb : o.launchB with
  | ok u =>
    cases u
    cases hcb : o.ctxB with
    | ok u2 =>
      cases u2
      refine ⟨?_, ?_, ?_, ?_, ?_⟩ <;>
        simp [newContextSafe, getBrowser, ctxRecover, openCtx, hb, hca, hlb, hcb,
          countLaunches, isLaunchEv, List.countP_cons, List.countP_append,
          List.countP] <;> simp [List.countP.go, isLaunchEv]
    | error ec =>
      refine ⟨?_, ?_, ?_, ?_, ?_⟩ <;>
        simp [newContextSafe, getBrowser, ctxRecover, openCtx, hb, hca, hlb, hcb,
          countLaunches, isLaunchEv, List.countP_cons, List.countP_append,
          List.countP] <;> simp [List.countP.go, isLaunchEv]
  | error eb =>
    refine ⟨?_, ?_, ?_, ?_, ?_⟩ <;>
      simp [newContextSafe, getBrowser, ctxRecover, openCtx, hb, hca, hlb,
        countLaunches, isLaunchEv, List.countP_cons, List.countP_append,
        List.countP] <;> simp [List.countP.go, isLaunchEv]

/-- Witness for C9 at the concrete poisoned-handle oracle. -/
theorem C9_context_recovery_witness :
    countLaunches (newContextSafe exCtxOracle exSt).2.2 = 1 ∧
    (∃ c, (newContextSafe exCtxOracle exSt).1 = Except.ok c) :=
  ⟨(C9_context_recovery exCtxOracle exSt 0 "newContext failed" rfl rfl).2.2.1,
   (C9_context_recovery exCtxOracle exSt 0 "newContext failed" rfl rfl).2.2.2.2.mpr
     ⟨rfl, rfl⟩⟩

theorem countStarts_runAttempt (o : AttemptOracle) (st : SSt) :
    countStarts (runAttempt o st).2.2 = 0 := by
  rcases st with ⟨br, nb, oc, nc⟩
  rcases o with ⟨⟨la, ca, lb, cb⟩, pipe, ce⟩
  cases br <;> cases la <;> cases ca <;> cases lb <;> cases cb <;>
    cases pipe <;> cases ce <;>
    simp [runAttempt, newContextSafe, getBrowser, ctxRecover, openCtx, closeCtxSt,
      countStarts, isStartEv, List.countP_cons, List.countP_append, List.countP] <;>
    simp [List.countP.go, isStartEv]

theorem attempt_openCtxs (o : AttemptOracle) (st : SSt) :
    (runAttempt o st).2.1.openCtxs = st.openCtxs := by
  rcases st with ⟨br, nb, oc, nc⟩
  rcases o with ⟨⟨la, ca, lb, cb⟩, pipe, ce⟩
  cases br <;> cases la <;> cases ca <;> cases lb <;> cases cb <;>
    cases pipe <;> cases ce <;>
    simp [runAttempt, newContextSafe, getBrowser, ctxRecover, openCtx, closeCtxSt,
      List.erase_cons_head]

theorem scrape_openCtxs (so : ScrapeOracle) (st : SSt) :
    (runScrape so st).2.1.openCtxs = st.openCtxs := by
  rcases h1 : runAttempt so.a1 st with ⟨r1, s1, t1⟩
  have e1 : s1.openCtxs = st.openCtxs := by
    have h := attempt_openCtxs so.a1 st
    rw [h1] at h
    exact h
  cases r1 with
  | ok r =>
    have hrs : (runScrape so st).2.1 = s1 := by simp [runScrape, h1]
    rw [hrs, e1]
  | error e =>
    rcases h2 : runAttempt so.a2 { s1 with browserRef := none } with ⟨r2, s3, t3⟩
    have e2 : s3.openCtxs = s1.openCtxs := by
      have h := attempt_openCtxs so.a2 { s1 with browserRef := none }
      rw [h2] at h
      simpa using h
    have hrs : (runScrape so st).2.1 = s3 := by simp [runScrape, h1, h2]
    rw [hrs, e2, e1]

/-- C2: a page context opened for an attempt is closed again on every exit
path of the attempt (successful return, thrown error, or a deadline expiry
surfacing as an attempt error), including when the close itself reports a
secondary error, so the set of open contexts after an attempt, and after a
whole two-attempt run, equals the set before. -/
theorem C2_context_closed (o : AttemptOracle) (so : ScrapeOracle) (st st2 : SSt) :
    (runAttempt o st).2.1.openCtxs = st.openCtxs ∧
    (runScrape so st2).2.1.openCtxs = st2.openCtxs :=
  ⟨attempt_openCtxs o st, scrape_openCtxs so st2⟩

theorem countStarts_invalidateEvs (st : SSt) : countStarts (invalidateEvs st) = 0 := by
  by_cases h : st.browserRef.isSome <;>
    simp [invalidateEvs, h, countStarts, List.countP_cons, isStartEv, List.countP,
      List.countP.go]

/-- C1: the navigation-through-assembly sequence runs at most twice; a
successful first attempt is returned directly with a single attempt; a failed
first attempt is followed by session invalidation (reference cleared, pause)
and exactly one retry that starts with a cleared browser reference; a
successful retry returns its record with no visible error and a failed retry
surfaces exactly that single terminal error. -/
theorem C1_retry_once (o : ScrapeOracle) (st : SSt) :
    countStarts (runScrape o st).2.2 ≤ 2 ∧
    (∀ r s1 t1, runAttempt o.a1 st = (Except.ok r, s1, t1) →
      (runScrape o st).1 = Except.ok r ∧ countStarts (runScrape o st).2.2 = 1) ∧
    (∀ e1 s1 t1, runAttempt o.a1 st = (Except.error e1, s1, t1) →
      (Ev.clearRef ∈ (runScrape o st).2.2 ∧ Ev.pause ∈ (runScrape o st).2.2 ∧
       Ev.attemptStart 2 none ∈ (runScrape o st).2.2 ∧
       countStarts (runScrape o st).2.2 = 2) ∧
      (∀ r s3 t3,
        runAttempt o.a2 { s1 with browserRef := none } = (Except.ok r, s3, t3) →
        (runScrape o st).1 = Except.ok r) ∧
      (∀ e2 s3 t3,
        runAttempt o.a2 { s1 with browserRef := none } = (Except.error e2, s3, t3) →
        (runScrape o st).1 = Except.error e2)) := by
  rcases h1 : runAttempt o.a1 st with ⟨r1, s1, t1⟩
  have hz1 : List.countP isStartEv t1 = 0 := by
    have h := countStarts_runAttempt o.a1 st
    rw [h1] at h
    exact h
  cases r1 with
  | ok r =>
    have hrs : runScrape o st =
        (Except.ok r, s1, Ev.attemptStart 1 st.browserRef :: t1) := by
      simp [runScrape, h1]
    refine ⟨?_, ?_, ?_⟩
    · rw [hrs]
      simp [countStarts, List.countP_cons, isStartEv, hz1]
    · intro r' s1' t1' h
      simp only [Prod.mk.injEq, Except.ok.injEq] at h
      obtain ⟨rfl, rfl, rfl⟩ := h
      refine ⟨by rw [hrs], ?_⟩
      rw [hrs]
      simp [countStarts, List.countP_cons, isStartEv, hz1]
    · intro e1 s1' t1' h
      simp at h
  | error e =>
    rcases h2 : runAttempt o.a2 { s1 with browserRef := none } with ⟨r2, s3, t3⟩
    have hz3 : List.countP isStartEv t3 = 0 := by
      have h := countStarts_runAttempt o.a2 { s1 with browserRef := none }
      rw [h2] at h
      exact h
    have hzi : List.countP isStartEv (invalidateEvs s1) = 0 :=
      countStarts_invalidateEvs s1
    have hrs : runScrape o st =
        (r2, s3, Ev.attemptStart 1 st.browserRef :: t1 ++ invalidateEvs s1 ++
          [Ev.attemptStart 2 none] ++ t3) := by
      simp [runScrape, h1, h2]
    refine ⟨?_, ?_, ?_⟩
    · rw [hrs]
      simp [countStarts, List.countP_cons, List.countP_append, isStartEv,
        hz1, hz3, hzi]
    · intro r' s1' t1' h
      simp at h
    · intro e1 s1' t1' h
      simp only [Prod.mk.injEq, Except.error.injEq] at h
      obtain ⟨rfl, rfl, rfl⟩ := h
      refine ⟨⟨?_, ?_, ?_, ?_⟩, ?_, ?_⟩
      · rw [hrs]
        by_cases hbs : s1.browserRef.isSome <;>
          simp [invalidateEvs, hbs, List.mem_append, List.mem_cons]
      · rw [hrs]
        by_cases hbs : s1.browserRef.isSome <;>
          simp [invalidateEvs, hbs, List.mem_append, List.mem_cons]
      · rw [hrs]
        simp [List.mem_append, List.mem_cons]
      · rw [hrs]
        simp [countStarts, List.countP_cons, List.countP_append, isStartEv,
          hz1, hz3, hzi]
      · intro r s3' t3' h
        rw [h2] at h
        simp only [Prod.mk.injEq] at h
        obtain ⟨h0, rfl, rfl⟩ := h
        rw [hrs, ← h0]
      · intro e2 s3' t3' h
        rw [h2] at h
        simp only [Prod.mk.injEq] at h
        obtain ⟨h0, rfl, rfl⟩ := h
        rw [hrs, ← h0]

/-- Witness for C1: with a first attempt failing on navigation and a second
attempt succeeding, the caller receives the record with no visible error. -/
theorem C1_retry_once_witness :
    (runScrape exScrapeOracle exSt).1 = Except.ok 7 :=
  ((C1_retry_once exScrapeOracle exSt).2.2 _ _ _ rfl).2.1 _ _ _ rfl

theorem squeeze_cons (rest : List Char) : ∀ b, ∃ t, squeeze (b :: rest) = b :: t := by
  induction rest with
  | nil => intro b; exact ⟨[], rfl⟩
  | cons x r ih =>
    intro b
    by_cases h : b = ' ' ∧ x = ' '
    · obtain ⟨t, ht⟩ := ih x
      refine ⟨t, ?_⟩
      simp only [squeeze]
      rw [if_pos h, ht, h.1, h.2]
    · refine ⟨squeeze (x :: r), ?_⟩
      simp only [squeeze]
      rw [if_neg h]

theorem mem_squeeze : ∀ (l : List Char) (c : Char), c ∈ squeeze l → c ∈ l
  | [], c => by simp [squeeze]
  | [a], c => by simp [squeeze]
  | a :: b :: rest, c => by
    simp only [squeeze]
    split
    · intro h
      exact List.mem_cons_of_mem a (mem_squeeze (b :: rest) c h)
    · intro h
      rcases List.mem_cons.mp h with h1 | h2
      · subst h1
        exact List.mem_cons_self c _
      · exact List.mem_cons_of_mem a (mem_squeeze (b :: rest) c h2)

theorem mem_squeeze_of_ne : ∀ (l : List Char) (c : Char), c ∈ l → c ≠ ' ' → c ∈ squeeze l
  | [], c, h, _ => by cases h
  | [a], c, h, _ => by simpa [squeeze] using h
  | a :: b :: rest, c, h, hne => by
    simp only [squeeze]
    split
    · rename_i hsp
      have hc : c ∈ b :: rest := by
        rcases List.mem_cons.mp h with h1 | h2
        · exact absurd (h1.trans hsp.1) hne
        · exact h2
      exact mem_squeeze_of_ne (b :: rest) c hc hne
    · rcases List.mem_cons.mp h with h1 | h2
      · subst h1
        exact List.mem_cons_self c _
      · exact List.mem_cons_of_mem a (mem_squeeze_of_ne (b :: rest) c h2 hne)

theorem chain_squeeze : ∀ l : List Char, List.Chain' noSp2 (squeeze l)
  | [] => by simp [squeeze]
  | [a] => by simp [squeeze]
  | a :: b :: rest => by
    simp only [squeeze]
    split
    · exact chain_squeeze (b :: rest)
    · rename_i hne
      obtain ⟨t, ht⟩ := squeeze_cons rest b
      rw [ht]
      have hc := chain_squeeze (b :: rest)
      rw [ht] at hc
      exact hc.cons hne

theorem squeeze_of_chain : ∀ l : List Char, List.Chain' noSp2 l → squeeze l = l
  | [], _ => rfl
  | [_], _ => rfl
  | a :: b :: rest, h => by
    obtain ⟨h1, h2⟩ := List.chain'_cons.mp h
    simp only [squeeze]
    rw [if_neg h1, squeeze_of_chain (b :: rest) h2]

theorem dropWhile_head_not (p : Char → Bool) :
    ∀ (l : List Char) (c : Char), (l.dropWhile p).head? = some c → p c = false
  | [], c => by simp
  | a :: t, c => by
    by_cases h : p a = true
    · rw [List.dropWhile_cons, if_pos h]
      exact dropWhile_head_not p t c
    · rw [List.dropWhile_cons, if_neg h]
      intro hc
      rw [List.head?_cons, Option.some.injEq] at hc
      rw [← hc]
      cases hpa : p a
      · rfl
      · exact absurd hpa h

theorem dropWhile_eq_self_of_head (p : Char → Bool) (l : List Char)
    (h : ∀ c, l.head? = some c → p c = false) : l.dropWhile p = l := by
  cases l with
  | nil => rfl
  | cons a t =>
    rw [List.dropWhile_cons, if_neg (by simp [h a rfl])]

theorem mem_dropWhile_of_mem (p : Char → Bool) :
    ∀ (l : List Char) (c : Char), c ∈ l → p c = false → c ∈ l.dropWhile p
  | [], c, h, _ => by cases h
  | a :: t, c, h, hc => by
    by_cases hpa : p a = true
    · rw [List.dropWhile_cons, if_pos hpa]
      have hmem : c ∈ t := by
        rcases List.mem_cons.mp h with h1 | h2
        · subst h1
          rw [hc] at hpa
          cases hpa
        · exact h2
      exact mem_dropWhile_of_mem p t c hmem hc
    · rw [List.dropWhile_cons, if_neg hpa]
      exact h

theorem suffix_getLast {α : Type} {l1 l2 : List α} (h : l2 <:+ l1) (hne : l2 ≠ []) :
    l2.getLast? = l1.getLast? := by
  obtain ⟨t, rfl⟩ := h
  exact (List.getLast?_append_of_ne_nil t hne).symm

theorem jsTrim_idem (l : List Char) : jsTrim (jsTrim l) = jsTrim l := by
  have hA : (((l.dropWhile jsWs).reverse.dropWhile jsWs).reverse).dropWhile jsWs =
      ((l.dropWhile jsWs).reverse.dropWhile jsWs).reverse := by
    apply dropWhile_eq_self_of_head
    intro c hc
    rw [List.head?_reverse] at hc
    by_cases hvnil : (l.dropWhile jsWs).reverse.dropWhile jsWs = []
    · rw [hvnil] at hc
      cases hc
    · have h1 := suffix_getLast (List.dropWhile_suffix jsWs) hvnil
      rw [h1, List.getLast?_reverse] at hc
      exact dropWhile_head_not jsWs l c hc
  have hB : ((l.dropWhile jsWs).reverse.dropWhile jsWs).dropWhile jsWs =
      (l.dropWhile jsWs).reverse.dropWhile jsWs := by
    apply dropWhile_eq_self_of_head
    intro c hc
    exact dropWhile_head_not jsWs (l.dropWhile jsWs).reverse c hc
  unfold jsTrim
  rw [hA, List.reverse_reverse, hB]

theorem wsNorm_map (l : List Char) : ∀ c ∈ l.map wsToSp, jsWs c = true → c = ' ' := by
  intro c hc hw
  obtain ⟨a, _, rfl⟩ := List.mem_map.mp hc
  by_cases h : jsWs a = true
  · rw [wsToSp, if_pos h]
  · rw [wsToSp, if_neg h] at hw ⊢
    exact absurd hw h

theorem map_wsToSp_id (l : List Char) (h : ∀ c ∈ l, jsWs c = true → c = ' ') :
    l.map wsToSp = l := by
  induction l with
  | nil => rfl
  | cons a t ih =>
    rw [List.map_cons, ih (fun c hc => h c (List.mem_cons_of_mem a hc))]
    congr 1
    by_cases hw : jsWs a = true
    · rw [wsToSp, if_pos hw, h a (List.mem_cons_self a t) hw]
    · rw [wsToSp, if_neg hw]

theorem mem_jsTrim {l : List Char} {c : Char} (h : c ∈ jsTrim l) : c ∈ l := by
  unfold jsTrim at h
  rw [List.mem_reverse] at h
  have h1 : c ∈ (l.dropWhile jsWs).reverse :=
    List.Sublist.mem h (List.dropWhile_sublist jsWs)
  rw [List.mem_reverse] at h1
  exact List.Sublist.mem h1 (List.dropWhile_sublist jsWs)

theorem mem_jsTrim_of (l : List Char) (c : Char) (hc : c ∈ l) (hw : jsWs c = false) :
    c ∈ jsTrim l := by
  unfold jsTrim
  rw [List.mem_reverse]
  apply mem_dropWhile_of_mem jsWs _ c _ hw
  rw [List.mem_reverse]
  exact mem_dropWhile_of_mem jsWs l c hc hw

theorem chain_jsTrim {l : List Char} (h : List.Chain' noSp2 l) :
    List.Chain' noSp2 (jsTrim l) := by
  have hsym : ∀ a b : Char, noSp2 a b → flip noSp2 a b :=
    fun a b hab hba => hab ⟨hba.2, hba.1⟩
  have h1 : List.Chain' noSp2 (l.dropWhile jsWs) :=
    h.suffix (List.dropWhile_suffix jsWs)
  have h2 : List.Chain' noSp2 (l.dropWhile jsWs).reverse :=
    List.chain'_reverse.mpr (h1.imp hsym)
  have h3 : List.Chain' noSp2 ((l.dropWhile jsWs).reverse.dropWhile jsWs) :=
    h2.suffix (List.dropWhile_suffix jsWs)
  exact List.chain'_reverse.mpr (h3.imp hsym)

/-- C7 counterexample: clean is not idempotent as claimed; on the
whitespace-only string one application yields the empty string while a second
application turns that falsy value into null. -/
theorem C7_counterexample :
    clean " " = some "" ∧ cleanOpt (clean " ") = none ∧
    cleanOpt (clean " ") ≠ clean " " := by
  refine ⟨rfl, rfl, ?_⟩
  decide

/-- C7 amended: clean is a pure function, and it is idempotent on every
string that is empty or contains at least one non-whitespace character; only
nonempty all-whitespace strings break idempotence (the first pass yields the
empty string, the second pass maps that falsy value to null). -/
theorem C7_clean_idem (s : String)
    (h : s = "" ∨ ∃ c ∈ s.data, jsWs c = false) :
    cleanOpt (clean s) = clean s := by
  rcases h with h | ⟨c, hc, hcw⟩
  · subst h; rfl
  · have hne : s.data ≠ [] := List.ne_nil_of_mem hc
    have hs : clean s = some (String.mk (jsTrim (squeeze (s.data.map wsToSp)))) := by
      rw [clean, cleanL, if_neg hne]
      rfl
    have hcsp : c ≠ ' ' := by
      intro h1
      rw [h1] at hcw
      exact absurd hcw (by decide)
    have hc1 : c ∈ s.data.map wsToSp := by
      have hw : wsToSp c = c := by rw [wsToSp, if_neg (by simp [hcw])]
      exact hw ▸ List.mem_map_of_mem wsToSp hc
    have hc2 : c ∈ squeeze (s.data.map wsToSp) := mem_squeeze_of_ne _ c hc1 hcsp
    have hc3 : c ∈ jsTrim (squeeze (s.data.map wsToSp)) := mem_jsTrim_of _ c hc2 hcw
    have hrne : jsTrim (squeeze (s.data.map wsToSp)) ≠ [] := List.ne_nil_of_mem hc3
    have hnorm : ∀ x ∈ jsTrim (squeeze (s.data.map wsToSp)), jsWs x = true → x = ' ' := by
      intro x hx hwx
      exact wsNorm_map s.data x (mem_squeeze _ x (mem_jsTrim hx)) hwx
    have hmap : (jsTrim (squeeze (s.data.map wsToSp))).map wsToSp =
        jsTrim (squeeze (s.data.map wsToSp)) := map_wsToSp_id _ hnorm
    have hchain : List.Chain' noSp2 (jsTrim (squeeze (s.data.map wsToSp))) :=
      chain_jsTrim (chain_squeeze _)
    have hsq : squeeze (jsTrim (squeeze (s.data.map wsToSp))) =
        jsTrim (squeeze (s.data.map wsToSp)) := squeeze_of_chain _ hchain
    have htr : jsTrim (jsTrim (squeeze (s.data.map wsToSp))) =
        jsTrim (squeeze (s.data.map wsToSp)) := jsTrim_idem _
    have hcl : cleanL (String.mk (jsTrim (squeeze (s.data.map wsToSp)))).data =
        some (jsTrim (squeeze (s.data.map wsToSp))) := by
      show cleanL (jsTrim (squeeze (s.data.map wsToSp))) = _
      rw [cleanL, if_neg hrne, hmap, hsq, htr]
    rw [hs]
    show clean (String.mk (jsTrim (squeeze (s.data.map wsToSp)))) = _
    rw [clean, hcl]
    rfl

/-- Witness for C7 at a concrete string containing non-whitespace. -/
theorem C7_clean_idem_witness :
    (∃ c ∈ ("a  b ").data, jsWs c = false) ∧
    cleanOpt (clean "a  b ") = clean "a  b " :=
  ⟨⟨'a', by decide, by decide⟩,
   C7_clean_idem "a  b " (Or.inr ⟨'a', by decide, by decide⟩)⟩

end Scraper
